import Mathlib

/-!
# Verification of the TradingRobot core (FrameClient / FxRobot)

Shallow embedding of `robot/data_control/frame_client.py` and
`robot/fx_robot.py`.  A pandas `DataFrame` is modelled as an index of
integer timestamps together with named columns of optional real values
(`none` models `NaN`).  Machine floats are modelled by exact reals.
-/

/-- A pandas column: one optional real value per row (`none` = `NaN`). -/
abbrev Col : Type := List (Option ℝ)

/-- Elementwise binary operation with `NaN` propagation, as pandas
arithmetic between two aligned series. -/
def colZip (f : ℝ → ℝ → ℝ) (a b : Col) : Col :=
  List.zipWith (fun x y =>
    match x, y with
    | some u, some v => some (f u v)
    | _, _ => none) a b

/-- Elementwise subtraction of two columns. -/
def colSub (a b : Col) : Col := colZip (fun u v => u - v) a b

/-- Elementwise addition of two columns. -/
def colAdd (a b : Col) : Col := colZip (fun u v => u + v) a b

/-- Elementwise absolute value (`Series.abs`). -/
def colAbs (a : Col) : Col := a.map (Option.map (fun u => |u|))

/-- Multiplication of a column by a scalar on the left (`std * series`). -/
def colSmul (s : ℝ) (a : Col) : Col := a.map (Option.map (fun u => s * u))

/-- Elementwise float division.  A zero denominator produces the
non-numeric sentinel `none` (pandas yields `NaN`/`inf`, never raises). -/
noncomputable def colDiv (a b : Col) : Col :=
  List.zipWith (fun x y =>
    match x, y with
    | some u, some v => if v = 0 then none else some (u / v)
    | _, _ => none) a b

/-- `Series.shift(1)`: move every value one row down, `NaN` in row 0. -/
def colShift1 (a : Col) : Col := none :: a.dropLast

/-- Row-wise maximum of two optional values with `skipna=True`
semantics: a missing operand is ignored. -/
def maxSkipna (x y : Option ℝ) : Option ℝ :=
  match x, y with
  | none, b => b
  | a, none => a
  | some u, some v => some (max u v)

/-- `df[[c1,c2,c3]].max(axis=1)` over three aligned columns. -/
def colMax3 (a b c : Col) : Col :=
  List.zipWith maxSkipna (List.zipWith maxSkipna a b) c

/-- Rolling window skeleton shared by `rolling(p).mean()` and
`rolling(p).std()`: at row `t` the window is the `p` entries ending at
`t`; the result is `NaN` while fewer than `p` rows exist or whenever the
window contains a `NaN` (default `min_periods` = window size). -/
def rollingApply (p : ℕ) (f : List ℝ → Option ℝ) (xs : Col) : Col :=
  (List.range xs.length).map (fun t =>
    if t + 1 < p then none
    else
      let w := (xs.take (t + 1)).drop (t + 1 - p)
      if w.all Option.isSome then f (w.filterMap id) else none)

/-- `rolling(p).mean()`. -/
noncomputable def rollingMean (p : ℕ) (xs : Col) : Col :=
  rollingApply p (fun w => some (w.sum / (w.length : ℝ))) xs

/-- Sample standard deviation of a window (`ddof=1`, as pandas). -/
noncomputable def stdWindow (w : List ℝ) : ℝ :=
  let m := w.sum / (w.length : ℝ)
  Real.sqrt ((w.map (fun x => (x - m) ^ 2)).sum / ((w.length : ℝ) - 1))

/-- `rolling(p).std()`: sample standard deviation with `ddof=1`; a
single-observation window has no sample deviation (`NaN`). -/
noncomputable def rollingStd (p : ℕ) (xs : Col) : Col :=
  rollingApply p (fun w => if w.length ≤ 1 then none else some (stdWindow w)) xs

/-- Number of non-`NaN` observations in a column prefix. -/
def countSome (xs : Col) : ℕ := (xs.filterMap id).length

/-- `Series.ewm(span=s, min_periods=m).mean()` with pandas defaults
(`adjust=True`, `ignore_na=False`): at row `t` the weight of the
observation at row `i ≤ t` is `(1-α)^(t-i)` with `α = 2/(s+1)`, missing
rows contribute nothing, and the output is `NaN` until `m` (at least
one) observations have been seen. -/
noncomputable def ewmMean (span minp : ℕ) (xs : Col) : Col :=
  let α : ℝ := 2 / ((span : ℝ) + 1)
  (List.range xs.length).map (fun t =>
    let prior := xs.take (t + 1)
    let obs := countSome prior
    if obs < minp ∨ obs = 0 then none
    else
      let wv := prior.enum.filterMap (fun q =>
        q.2.map (fun v => ((1 - α) ^ (t - q.1), v)))
      some ((wv.map (fun q => q.1 * q.2)).sum / (wv.map (fun q => q.1)).sum))

/-- A pandas `DataFrame`: integer-timestamp index plus named columns. -/
structure Frame where
  index : List ℤ
  cols : List (String × Col)

/-- The initial `pd.DataFrame()`: no rows, no columns. -/
def emptyFrame : Frame := { index := [], cols := [] }

/-- The column names, in column order. -/
def Frame.colNames (f : Frame) : List String := f.cols.map (fun p => p.1)

/-- Look a column up by name. -/
def Frame.getColOpt (f : Frame) (n : String) : Option Col :=
  (f.cols.find? (fun p => p.1 == n)).map (fun p => p.2)

/-- `df[n]`, defaulting to an all-`NaN` column when absent. -/
def Frame.getCol (f : Frame) (n : String) : Col :=
  (f.getColOpt n).getD (List.replicate f.index.length none)

/-- `df[n] = v`: overwrite an existing column in place, or append a new
column at the end. -/
def Frame.setCol (f : Frame) (n : String) (v : Col) : Frame :=
  if f.colNames.contains n then
    { f with cols := f.cols.map (fun p => if p.1 == n then (n, v) else p) }
  else
    { f with cols := f.cols ++ [(n, v)] }

/-- `df.drop(names, axis=1)`. -/
def Frame.dropCols (f : Frame) (ns : List String) : Frame :=
  { f with cols := f.cols.filter (fun p => !(ns.contains p.1)) }

/-- `df.iloc[k:]`: drop the first `k` rows. -/
def Frame.dropRows (f : Frame) (k : ℕ) : Frame :=
  { index := f.index.drop k, cols := f.cols.map (fun p => (p.1, p.2.drop k)) }

/-- `len(df)`. -/
def Frame.length (f : Frame) : ℕ := f.index.length

/-- `df.empty`. -/
def Frame.isEmpty (f : Frame) : Bool := f.index.isEmpty

/-- `df.append(rows)`: concatenate rows, aligning columns by name; a
column absent on one side is padded with `NaN` there, and columns new in
`rows` are placed after `df`'s columns. -/
def Frame.append (df rows : Frame) : Frame :=
  { index := df.index ++ rows.index,
    cols :=
      df.cols.map (fun p =>
        (p.1, p.2 ++ ((rows.getColOpt p.1).getD (List.replicate rows.index.length none))))
      ++ (rows.cols.filter (fun p => !(df.colNames.contains p.1))).map (fun p =>
        (p.1, List.replicate df.index.length none ++ p.2)) }

/-- The `while i < len(rows) and self.df.index[-1] != rows.index[i]`
scan of `FrameClient.add_rows`: index of the first timestamp equal to
`last`, or the length of the list when none matches. -/
def overlapIdx (last : ℤ) : List ℤ → ℕ
  | [] => 0
  | t :: ts => if last ≠ t then overlapIdx last ts + 1 else 0

/-- The stored indicator registration: the saved `func` together with
its captured call arguments (`locals()` minus `self`), which include the
registry `name` itself. -/
inductive IndicatorCall where
  | macd (fast slow macd_period : ℕ) (nm : String)
  | atr (period : ℕ) (nm : String)
  | bbands (period : ℕ) (std : ℝ) (nm : String)

/-- The `name` argument captured inside an `IndicatorCall`. -/
def IndicatorCall.callName : IndicatorCall → String
  | .macd _ _ _ nm => nm
  | .atr _ nm => nm
  | .bbands _ _ nm => nm

/-- `self.indicators[name] = spec` on a python `dict`: replace the value
of an existing key in place (keeping its position), else append. -/
def upsert (k : String) (v : IndicatorCall) :
    List (String × IndicatorCall) → List (String × IndicatorCall)
  | [] => [(k, v)]
  | p :: rest => if p.1 = k then (k, v) :: rest else p :: upsert k v rest

/-- `FrameClient`: the rolling frame, its capacity, and the indicator
registry (a python `dict`, insertion ordered). -/
structure FrameClient where
  df : Frame
  max_size : ℕ
  indicators : List (String × IndicatorCall)

/-- `FrameClient._save_indicator` minus its boolean result: record the
spec under `name`.  (Callers read `not df.empty` directly.) -/
def FrameClient.save_indicator (c : FrameClient) (nm : String)
    (call : IndicatorCall) : FrameClient :=
  { c with indicators := upsert nm call c.indicators }

/-- The dedup/append phase of `FrameClient.add_rows` (everything before
the eviction step). -/
def FrameClient.mergeRows (c : FrameClient) (rows : Frame) : Frame :=
  let df := c.df
  let i := if df.isEmpty then 0 else overlapIdx (df.index.getLastD 0) rows.index
  if i = rows.length ∨ i = 0 then df.append rows else df.append (rows.dropRows (i + 1))

/-- `FrameClient.add_rows`: merge, then drop the oldest
`len - max_size` rows when the capacity is exceeded. -/
def FrameClient.add_rows (c : FrameClient) (rows : Frame) : FrameClient :=
  let merged := c.mergeRows rows
  let rows_drop := merged.length - c.max_size
  { c with df := if 0 < rows_drop then merged.dropRows rows_drop else merged }

/-- `FrameClient.get_last_bars(n)` = `df.iloc[-n:]`. -/
def FrameClient.get_last_bars (c : FrameClient) (n : ℕ) : Frame :=
  c.df.dropRows (c.df.length - n)

/-- The body of `FrameClient.macd` after the guard: EWMAs of `close`,
their difference, its EWMA, then the transient columns are dropped. -/
noncomputable def macdCompute (fast slow macd_period : ℕ) (df : Frame) : Frame :=
  let close := df.getCol "close"
  let f1 := ewmMean fast fast close
  let f2 := ewmMean slow slow close
  let d := colSub f1 f2
  let m := ewmMean macd_period macd_period d
  (((((df.setCol "macd_fast" f1).setCol "macd_slow" f2).setCol "macd_diff" d).setCol
    "macd" m)).dropCols ["macd_fast", "macd_slow", "macd_diff"]

/-- The body of `FrameClient.atr` after the guard: true-range pieces,
their row-wise maximum, its rolling mean, transient columns dropped. -/
noncomputable def atrCompute (period : ℕ) (df : Frame) : Frame :=
  let hl := colAbs (colSub (df.getCol "high") (df.getCol "low"))
  let hp := colAbs (colSub (df.getCol "high") (colShift1 (df.getCol "close")))
  let lp := colAbs (colSub (df.getCol "low") (colShift1 (df.getCol "close")))
  let tr := colMax3 hl hp lp
  let a := rollingMean period tr
  ((((((df.setCol "tr_hl" hl).setCol "tr_hp" hp).setCol "tr_lp" lp).setCol
    "tr" tr).setCol "atr" a)).dropCols ["tr_hl", "tr_hp", "tr_lp", "tr"]

/-- The body of `FrameClient.bbands` after the guard.  Note the source
takes the rolling standard deviation of the rolling mean `bbands_ma`,
not of `close`. -/
noncomputable def bbandsCompute (period : ℕ) (std : ℝ) (df : Frame) : Frame :=
  let close := df.getCol "close"
  let ma := rollingMean period close
  let sd := rollingStd period ma
  let up := colAdd ma (colSmul std sd)
  let dn := colSub ma (colSmul std sd)
  let pct := colDiv (colSub close dn) (colSub up dn)
  ((((((df.setCol "bbands_ma" ma).setCol "bbands_std" sd).setCol "bbands_up" up).setCol
    "bbands_dn" dn).setCol "bbands_percent" pct)).dropCols
    ["bbands_ma", "bbands_std", "bbands_up", "bbands_dn"]

/-- `FrameClient.macd`: always (re)save the spec under `name`; compute
only when the frame is not empty. -/
noncomputable def FrameClient.macd (c : FrameClient)
    (fast slow macd_period : ℕ) (nm : String) : FrameClient :=
  let c1 := c.save_indicator nm (.macd fast slow macd_period nm)
  if c.df.isEmpty then c1
  else { c1 with df := macdCompute fast slow macd_period c1.df }

/-- `FrameClient.atr`: save the spec; compute when not empty. -/
noncomputable def FrameClient.atr (c : FrameClient) (period : ℕ)
    (nm : String) : FrameClient :=
  let c1 := c.save_indicator nm (.atr period nm)
  if c.df.isEmpty then c1
  else { c1 with df := atrCompute period c1.df }

/-- `FrameClient.bbands`: save the spec; compute when not empty. -/
noncomputable def FrameClient.bbands (c : FrameClient) (period : ℕ)
    (std : ℝ) (nm : String) : FrameClient :=
  let c1 := c.save_indicator nm (.bbands period std nm)
  if c.df.isEmpty then c1
  else { c1 with df := bbandsCompute period std c1.df }

/-- The pure frame effect of one registered indicator body. -/
noncomputable def computeCall : IndicatorCall → Frame → Frame
  | .macd f s m _, df => macdCompute f s m df
  | .atr p _, df => atrCompute p df
  | .bbands p s _, df => bbandsCompute p s df

/-- `indicator['func'](**indicator['args'])`: replay one saved
registration call on the client. -/
noncomputable def applyCall (c : FrameClient) : IndicatorCall → FrameClient
  | .macd f s m nm => c.macd f s m nm
  | .atr p nm => c.atr p nm
  | .bbands p s nm => c.bbands p s nm

/-- `FrameClient.update`: replay every saved registration call, in
registry (insertion) order. -/
noncomputable def FrameClient.update (c : FrameClient) : FrameClient :=
  c.indicators.foldl (fun acc p => applyCall acc p.2) c

/-! ## FxRobot (`robot/fx_robot.py`) -/

/-- A broker order object (external `fxcmpy` collaborator, opaque apart
from its identifier accessor). -/
structure Order where
  orderId : String

/-- `order.get_orderId()`. -/
def Order.get_orderId (o : Order) : String := o.orderId

/-- Modelled from the spec: `Trade` lives in `robot/common.py`, which is
not under `src/`.  Per the spec a Trade carries an order type (`Entry`
vs. immediate) and a broker-specific parameter bag derived from its
fields. -/
structure Trade where
  order_type : String
  fxcm_args : List (String × String)

/-- `trade.get_order_type()`. -/
def Trade.get_order_type (t : Trade) : String := t.order_type

/-- `trade.get_fxcm_args()`. -/
def Trade.get_fxcm_args (t : Trade) : List (String × String) := t.fxcm_args

/-- Modelled from the spec: `Portfolio` lives in `robot/common.py`,
which is not under `src/`.  Per the spec it is an identifier plus an
ordered, append-only collection of orders (a failed placement is
recorded as an absent order). -/
structure Portfolio where
  id : ℕ
  orders : List (Option Order)

/-- Modelled from the spec: `Portfolio.add_order` appends the order to
the portfolio's ordered collection; orders are never removed. -/
def Portfolio.add_order (p : Portfolio) (o : Option Order) : Portfolio :=
  { p with orders := p.orders ++ [o] }

/-- The slice of the broker connection consumed by
`FxRobot.open_trade` (external collaborator, opaque functions). -/
structure FxcmApi where
  create_entry_order : List (String × String) → Option Order
  open_trade : List (String × String) → Option Order

/-- `FxRobot.open_trade`: dispatch on the order type, extract the id
(`None` when the broker returned no order), append to the portfolio,
return the id.  The result pairs the returned id with the updated
portfolio. -/
def FxRobot.open_trade (api : FxcmApi) (trade : Trade) (portfolio : Portfolio) :
    Option String × Portfolio :=
  let order :=
    if trade.get_order_type = "Entry" then api.create_entry_order trade.get_fxcm_args
    else api.open_trade trade.get_fxcm_args
  let i := order.map Order.get_orderId
  (i, portfolio.add_order order)

/-- A python argument that is either one string or a list of strings. -/
inductive Symbols where
  | one (s : String)
  | many (l : List String)

/-- `if type(symbols) == str: symbols = list(symbols)` — note that
python's `list` on a string yields its characters as 1-character
strings. -/
def pyListOfSymbols : Symbols → List String
  | .one s => s.toList.map Char.toString
  | .many l => l

/-- `FxRobot.subscribe_instrument`: one broker call per element of the
normalized symbol list, results collected in order.  The broker call is
an opaque function. -/
def FxRobot.subscribe_instrument {A : Type} (api : String → A)
    (symbols : Symbols) : List A :=
  (pyListOfSymbols symbols).map api

/-- `FxRobot.unsubscribe_instrument`: same shape as subscription. -/
def FxRobot.unsubscribe_instrument {A : Type} (api : String → A)
    (symbols : Symbols) : List A :=
  (pyListOfSymbols symbols).map api

/-- A `pd.Timestamp`: a clock reading in seconds together with an
optional UTC offset in seconds (`none` = timezone-naive). -/
structure PdTimestamp where
  clock : ℚ
  tz : Option ℚ

/-- `ts.tz_localize('utc')` on a naive timestamp: reinterpret the clock
reading as UTC. -/
def PdTimestamp.tz_localize_utc (t : PdTimestamp) : PdTimestamp :=
  { clock := t.clock, tz := some 0 }

/-- `ts.tz_convert('utc')` on an aware timestamp: keep the instant,
moving the clock reading by the offset. -/
def PdTimestamp.tz_convert_utc (t : PdTimestamp) : PdTimestamp :=
  { clock := t.clock - t.tz.getD 0, tz := some 0 }

/-- `FxRobot.sleep_till_next_bar`, determinized over the current
instant: `now` stands for `pd.Timestamp.utcnow()` during the call.  The
result is the duration handed to `time.sleep`. -/
def FxRobot.sleep_till_next_bar (last_timestamp : Option PdTimestamp)
    (timedelta : ℚ) (now : ℚ) : ℚ :=
  let last :=
    match last_timestamp with
    | none => PdTimestamp.mk now (some 0)
    | some t =>
      match t.tz with
      | none => t.tz_localize_utc
      | some _ => t.tz_convert_utc
  let next := last.clock + timedelta
  let delta := next - now
  max (1 / 10) delta

/-! ## Definitions written from the spec's words, for comparison -/

/-- The normalization the claim describes for the scheduler: absent
means now, a naive timestamp is assumed UTC, an aware one is converted
to UTC. -/
def utcNormalize (last_timestamp : Option PdTimestamp) (now : ℚ) : ℚ :=
  match last_timestamp with
  | none => now
  | some t =>
    match t.tz with
    | none => t.clock
    | some o => t.clock - o

/-- The merge phase as claim C4 words it: `i` is the index of the first
row whose timestamp DIFFERS from the buffer's last timestamp. -/
def mergeRowsC4spec (c : FrameClient) (rows : Frame) : Frame :=
  let df := c.df
  let i := if df.isEmpty then 0
    else rows.index.findIdx (fun t => t != df.index.getLastD 0)
  if i = rows.length ∨ i = 0 then df.append rows else df.append (rows.dropRows (i + 1))

/-- `add_rows` as claim C4 words it. -/
def add_rowsC4spec (c : FrameClient) (rows : Frame) : FrameClient :=
  let merged := mergeRowsC4spec c rows
  let rows_drop := merged.length - c.max_size
  { c with df := if 0 < rows_drop then merged.dropRows rows_drop else merged }

/-- The Bollinger `%b` column as claim C3 words it: `sd` is the rolling
standard deviation OF CLOSE over `period` bars, and
`%b = (close - (ma - std*sd)) / ((ma + std*sd) - (ma - std*sd))`. -/
noncomputable def bbandsPercentC3spec (period : ℕ) (std : ℝ) (close : Col) : Col :=
  let ma := rollingMean period close
  let sd := rollingStd period close
  let up := colAdd ma (colSmul std sd)
  let dn := colSub ma (colSmul std sd)
  colDiv (colSub close dn) (colSub up dn)

/-! ## Concrete inputs used by counterexamples and witnesses -/

/-- A two-bar buffer with timestamps 1, 2. -/
def frameB12 : Frame := { index := [1, 2], cols := [("close", [some 1, some 2])] }

/-- A client holding `frameB12` with the default capacity. -/
def clientB12 : FrameClient := { df := frameB12, max_size := 1000, indicators := [] }

/-- New rows with timestamps 2, 3: their leading bar overlaps the
buffer's trailing bar. -/
def rowsR23 : Frame := { index := [2, 3], cols := [("close", [some 2, some 3])] }

/-- A three-bar buffer with closes 0, 1, 2. -/
def frame123 : Frame :=
  { index := [1, 2, 3], cols := [("close", [some 0, some 1, some 2])] }

/-- A client holding `frame123`. -/
def client123 : FrameClient := { df := frame123, max_size := 1000, indicators := [] }

/-- New rows with timestamps 2, 3, 4: a two-bar overlap with `frame123`. -/
def rows234 : Frame :=
  { index := [2, 3, 4], cols := [("close", [some 1, some 2, some 3])] }

/-- A client holding `frameB12` with capacity 2 (for eviction cases). -/
def clientCap2 : FrameClient := { df := frameB12, max_size := 2, indicators := [] }

/-- A single fresh row with timestamp 3. -/
def rows3 : Frame := { index := [3], cols := [("close", [some 3])] }

/-- A one-bar buffer with timestamp 5. -/
def frame5 : Frame := { index := [5], cols := [("close", [some 1])] }

/-- A client holding `frame5`. -/
def client5 : FrameClient := { df := frame5, max_size := 1000, indicators := [] }

/-- New rows with timestamps 5, 6, 7: the overlap sits at index 0. -/
def rows567 : Frame :=
  { index := [5, 6, 7], cols := [("close", [some 1, some 2, some 3])] }

/-- A freshly constructed client: empty frame, empty registry. -/
def emptyClient : FrameClient := { df := emptyFrame, max_size := 1000, indicators := [] }

/-- An empty-frame client that already has registered indicators. -/
def emptyClientReg : FrameClient :=
  { df := emptyFrame, max_size := 1000,
    indicators := [("macd", .macd 12 26 9 "macd"), ("atr", .atr 20 "atr")] }

/-- A non-empty client with one registered indicator. -/
def clientReg : FrameClient :=
  { df := frame123, max_size := 1000, indicators := [("macd", .macd 2 4 2 "macd")] }

/-- A broker order acknowledged with id `"42"`. -/
def order42 : Order := { orderId := "42" }

/-- A broker stub whose pending-order placement returns `order42` and
whose immediate placement returns nothing. -/
def apiStub : FxcmApi :=
  { create_entry_order := fun _ => some order42, open_trade := fun _ => none }

/-- A pending-style trade request. -/
def tradeEntry : Trade := { order_type := "Entry", fxcm_args := [("symbol", "EUR/USD")] }

/-- A fresh portfolio. -/
def portfolio0 : Portfolio := { id := 1, orders := [] }

/-- The Bollinger `%b` column the source actually produces, stated
pointwise (used by the amended claim C3). -/
noncomputable def bbandsPercentAmended (period : ℕ) (std : ℝ) (close : Col) : Col :=
  let ma := rollingMean period close
  let sd := rollingStd period ma
  let up := colAdd ma (colSmul std sd)
  let dn := colSub ma (colSmul std sd)
  colDiv (colSub close dn) (colSub up dn)

/-! ## Helper lemmas: the merge/evict phases of `add_rows` -/

theorem overlapIdx_le (last : ℤ) (l : List ℤ) : overlapIdx last l ≤ l.length := by
  induction l with
  | nil => exact Nat.le_refl 0
  | cons t ts ih =>
    by_cases h : last = t
    · simp [overlapIdx, h]
    · have h' : last ≠ t := h
      simp only [overlapIdx, if_pos h', List.length_cons]
      omega

theorem overlapIdx_getElem? (last : ℤ) (l : List ℤ)
    (h : overlapIdx last l < l.length) : l[overlapIdx last l]? = some last := by
  induction l with
  | nil => simp at h
  | cons t ts ih =>
    by_cases hc : last = t
    · simp [overlapIdx, hc]
    · have hc' : last ≠ t := hc
      have e : overlapIdx last (t :: ts) = overlapIdx last ts + 1 := by
        simp [overlapIdx, hc']
      rw [e] at h ⊢
      rw [List.getElem?_cons_succ]
      exact ih (by simpa using h)

theorem overlapIdx_eq_findIdx (last : ℤ) (l : List ℤ) :
    overlapIdx last l = l.findIdx (fun t => t == last) := by
  induction l with
  | nil => rfl
  | cons t ts ih =>
    rw [List.findIdx_cons]
    by_cases hteq : t = last
    · have hb : (t == last) = true := beq_iff_eq.mpr hteq
      simp [overlapIdx, hteq.symm, hb]
    · have hb : (t == last) = false := beq_eq_false_iff_ne.mpr hteq
      have hlast : last ≠ t := fun h => hteq h.symm
      simp [overlapIdx, hlast, hb, ih]

theorem Frame.append_index (df rows : Frame) :
    (df.append rows).index = df.index ++ rows.index := rfl

theorem Frame.dropRows_index (f : Frame) (k : ℕ) :
    (f.dropRows k).index = f.index.drop k := rfl

theorem Frame.length_def (f : Frame) : f.length = f.index.length := rfl

theorem add_rows_df_eq (c : FrameClient) (rows : Frame) :
    (c.add_rows rows).df =
      (if 0 < (c.mergeRows rows).length - c.max_size then
        (c.mergeRows rows).dropRows ((c.mergeRows rows).length - c.max_size)
      else c.mergeRows rows) := rfl

theorem add_rows_index_drop (c : FrameClient) (rows : Frame) :
    (c.add_rows rows).df.index =
      (c.mergeRows rows).index.drop ((c.mergeRows rows).length - c.max_size) := by
  rw [add_rows_df_eq]
  split
  · rfl
  · next h => rw [Nat.eq_zero_of_not_pos h, List.drop_zero]

theorem mergeRows_index_of_overlap (c : FrameClient) (rows : Frame)
    (hne : c.df.index ≠ [])
    (h0 : 0 < overlapIdx (c.df.index.getLastD 0) rows.index)
    (hlt : overlapIdx (c.df.index.getLastD 0) rows.index < rows.index.length) :
    (c.mergeRows rows).index =
      c.df.index ++ rows.index.drop (overlapIdx (c.df.index.getLastD 0) rows.index + 1) := by
  have hemp : c.df.isEmpty = false := by
    simp [Frame.isEmpty, List.isEmpty_eq_false, hne]
  have hcond : ¬(overlapIdx (c.df.index.getLastD 0) rows.index = rows.length ∨
      overlapIdx (c.df.index.getLastD 0) rows.index = 0) := by
    rw [Frame.length_def]
    omega
  unfold FrameClient.mergeRows
  simp only [hemp, Bool.false_eq_true, if_false]
  rw [if_neg hcond, Frame.append_index, Frame.dropRows_index]

theorem le_getLastD_of_pairwise {l : List ℤ} (hl : l.Pairwise (· < ·))
    {a : ℤ} (ha : a ∈ l) : a ≤ l.getLastD 0 := by
  have hne : l ≠ [] := List.ne_nil_of_mem ha
  rw [List.getLastD_eq_getLast?, List.getLast?_eq_getLast l hne, Option.getD_some,
    List.getLast_eq_getElem]
  obtain ⟨n, hn, rfl⟩ := List.mem_iff_getElem.mp ha
  rcases Nat.lt_or_ge n (l.length - 1) with h | h
  · exact le_of_lt (List.pairwise_iff_getElem.mp hl n (l.length - 1) hn (by omega) h)
  · have : n = l.length - 1 := by omega
    subst this
    exact le_refl _

/-! ## Helper lemmas: frame columns, registry, replay -/

theorem contains_eq_false_of_not_mem {l : List String} {a : String}
    (h : a ∉ l) : l.contains a = false := by
  cases hb : l.contains a with
  | false => rfl
  | true =>
    exfalso
    rw [List.contains_eq_any_beq, List.any_eq_true] at hb
    obtain ⟨x, hx, hax⟩ := hb
    exact h ((beq_iff_eq.mp hax) ▸ hx)

theorem contains_eq_true_of_mem {l : List String} {a : String}
    (h : a ∈ l) : l.contains a = true := by
  rw [List.contains_eq_any_beq, List.any_eq_true]
  exact ⟨a, h, beq_self_eq_true a⟩

theorem find?_map_overwrite (n : String) (v : Col) (cols : List (String × Col)) :
    ((cols.map (fun p => if p.1 == n then (n, v) else p)).find? (fun p => p.1 == n)) =
      (cols.find? (fun p => p.1 == n)).map (fun _ => (n, v)) := by
  induction cols with
  | nil => rfl
  | cons p rest ih =>
    simp only [List.map_cons]
    by_cases hp : (p.1 == n) = true
    · rw [if_pos hp]
      have e1 : List.find? (fun q => q.1 == n)
          ((n, v) :: rest.map (fun p => if p.1 == n then (n, v) else p)) = some (n, v) :=
        List.find?_cons_of_pos _ (beq_self_eq_true n)
      have e2 : List.find? (fun q => q.1 == n) (p :: rest) = some p :=
        List.find?_cons_of_pos _ hp
      rw [e1, e2]
      rfl
    · rw [if_neg hp]
      have e1 : List.find? (fun q => q.1 == n)
          (p :: rest.map (fun p => if p.1 == n then (n, v) else p)) =
          List.find? (fun q => q.1 == n)
            (rest.map (fun p => if p.1 == n then (n, v) else p)) :=
        List.find?_cons_of_neg _ hp
      have e2 : List.find? (fun q => q.1 == n) (p :: rest) =
          List.find? (fun q => q.1 == n) rest :=
        List.find?_cons_of_neg _ hp
      rw [e1, e2, ih]

theorem find?_map_overwrite_ne (n n2 : String) (v : Col) (h : n2 ≠ n)
    (cols : List (String × Col)) :
    ((cols.map (fun p => if p.1 == n then (n, v) else p)).find? (fun p => p.1 == n2)) =
      cols.find? (fun p => p.1 == n2) := by
  have hn2 : (n == n2) = false := beq_eq_false_iff_ne.mpr (fun hq => h hq.symm)
  induction cols with
  | nil => rfl
  | cons p rest ih =>
    simp only [List.map_cons]
    by_cases hp : (p.1 == n) = true
    · have hpn : p.1 = n := beq_iff_eq.mp hp
      have h2 : ¬(p.1 == n2) = true := by rw [hpn, hn2]; exact Bool.false_ne_true
      rw [if_pos hp]
      have e1 : List.find? (fun q => q.1 == n2)
          ((n, v) :: rest.map (fun p => if p.1 == n then (n, v) else p)) =
          List.find? (fun q => q.1 == n2)
            (rest.map (fun p => if p.1 == n then (n, v) else p)) :=
        List.find?_cons_of_neg _ (by rw [show ((n, v).1 == n2) = (n == n2) from rfl, hn2]; exact Bool.false_ne_true)
      have e2 : List.find? (fun q => q.1 == n2) (p :: rest) =
          List.find? (fun q => q.1 == n2) rest :=
        List.find?_cons_of_neg _ h2
      rw [e1, e2, ih]
    · rw [if_neg hp]
      by_cases hq : (p.1 == n2) = true
      · have e1 : List.find? (fun q => q.1 == n2)
            (p :: rest.map (fun p => if p.1 == n then (n, v) else p)) = some p :=
          List.find?_cons_of_pos _ hq
        have e2 : List.find? (fun q => q.1 == n2) (p :: rest) = some p :=
          List.find?_cons_of_pos _ hq
        rw [e1, e2]
      · have e1 : List.find? (fun q => q.1 == n2)
            (p :: rest.map (fun p => if p.1 == n then (n, v) else p)) =
            List.find? (fun q => q.1 == n2)
              (rest.map (fun p => if p.1 == n then (n, v) else p)) :=
          List.find?_cons_of_neg _ hq
        have e2 : List.find? (fun q => q.1 == n2) (p :: rest) =
            List.find? (fun q => q.1 == n2) rest :=
          List.find?_cons_of_neg _ hq
        rw [e1, e2, ih]

theorem find?_filter_kept (n : String) (ns : List String) (hn : n ∉ ns)
    (cols : List (String × Col)) :
    ((cols.filter (fun p => !(ns.contains p.1))).find? (fun p => p.1 == n)) =
      cols.find? (fun p => p.1 == n) := by
  induction cols with
  | nil => rfl
  | cons p rest ih =>
    by_cases hp : (p.1 == n) = true
    · have hpn : p.1 = n := beq_iff_eq.mp hp
      have hkeep : (!(ns.contains p.1)) = true := by
        rw [hpn, contains_eq_false_of_not_mem hn]
        rfl
      have e0 : (p :: rest).filter (fun p => !(ns.contains p.1)) =
          p :: rest.filter (fun p => !(ns.contains p.1)) :=
        List.filter_cons_of_pos hkeep
      have e1 : List.find? (fun q => q.1 == n)
          (p :: rest.filter (fun p => !(ns.contains p.1))) = some p :=
        List.find?_cons_of_pos _ hp
      have e2 : List.find? (fun q => q.1 == n) (p :: rest) = some p :=
        List.find?_cons_of_pos _ hp
      rw [e0, e1, e2]
    · have e2 : List.find? (fun q => q.1 == n) (p :: rest) =
          List.find? (fun q => q.1 == n) rest :=
        List.find?_cons_of_neg _ hp
      by_cases hk : (!(ns.contains p.1)) = true
      · have e0 : (p :: rest).filter (fun p => !(ns.contains p.1)) =
            p :: rest.filter (fun p => !(ns.contains p.1)) :=
          List.filter_cons_of_pos hk
        have e1 : List.find? (fun q => q.1 == n)
            (p :: rest.filter (fun p => !(ns.contains p.1))) =
            List.find? (fun q => q.1 == n)
              (rest.filter (fun p => !(ns.contains p.1))) :=
          List.find?_cons_of_neg _ hp
        rw [e0, e1, e2, ih]
      · have e0 : (p :: rest).filter (fun p => !(ns.contains p.1)) =
            rest.filter (fun p => !(ns.contains p.1)) :=
          List.filter_cons_of_neg (by simpa using hk)
        rw [e0, e2, ih]

theorem Frame.index_setCol (f : Frame) (n : String) (v : Col) :
    (f.setCol n v).index = f.index := by
  unfold Frame.setCol
  split
  · rfl
  · rfl

theorem Frame.index_dropCols (f : Frame) (ns : List String) :
    (f.dropCols ns).index = f.index := rfl

theorem Frame.dropCols_cols (f : Frame) (ns : List String) :
    (f.dropCols ns).cols = f.cols.filter (fun p => !(ns.contains p.1)) := rfl

theorem Frame.setCol_cols_pos (f : Frame) (n : String) (v : Col)
    (h : f.colNames.contains n = true) :
    (f.setCol n v).cols = f.cols.map (fun p => if p.1 == n then (n, v) else p) := by
  unfold Frame.setCol
  rw [if_pos h]

theorem Frame.setCol_cols_neg (f : Frame) (n : String) (v : Col)
    (h : ¬f.colNames.contains n = true) :
    (f.setCol n v).cols = f.cols ++ [(n, v)] := by
  unfold Frame.setCol
  rw [if_neg h]

theorem Frame.getCol_eq (f : Frame) (n : String) :
    f.getCol n = ((f.cols.find? (fun p => p.1 == n)).map (fun p => p.2)).getD
      (List.replicate f.index.length none) := rfl

theorem Frame.getCol_setCol_self (f : Frame) (n : String) (v : Col) :
    (f.setCol n v).getCol n = v := by
  rw [Frame.getCol_eq]
  by_cases h : f.colNames.contains n = true
  · rw [Frame.setCol_cols_pos f n v h, find?_map_overwrite]
    have hmem : ∃ q ∈ f.cols, (fun p : String × Col => p.1 == n) q = true := by
      rw [show f.colNames = f.cols.map (fun p => p.1) from rfl,
        List.contains_eq_any_beq, List.any_eq_true] at h
      obtain ⟨x, hx, hxn⟩ := h
      obtain ⟨q, hq, rfl⟩ := List.mem_map.mp hx
      exact ⟨q, hq, beq_iff_eq.mpr (beq_iff_eq.mp hxn).symm⟩
    obtain ⟨q, hq⟩ := Option.isSome_iff_exists.mp (List.find?_isSome.mpr hmem)
    rw [hq]
    rfl
  · rw [Frame.setCol_cols_neg f n v h, List.find?_append]
    have hnone : f.cols.find? (fun p => p.1 == n) = none := by
      rw [List.find?_eq_none]
      intro p hp hpn
      have hmem : n ∈ f.colNames := (beq_iff_eq.mp hpn) ▸ List.mem_map_of_mem _ hp
      exact h (contains_eq_true_of_mem hmem)
    have hone : List.find? (fun p : String × Col => p.1 == n) [(n, v)] = some (n, v) :=
      List.find?_cons_of_pos _ (beq_self_eq_true n)
    rw [hnone, hone, Option.none_or]
    rfl

theorem Frame.getCol_setCol_ne (f : Frame) (n n2 : String) (v : Col)
    (h : n2 ≠ n) : (f.setCol n v).getCol n2 = f.getCol n2 := by
  rw [Frame.getCol_eq, Frame.getCol_eq, Frame.index_setCol]
  by_cases hc : f.colNames.contains n = true
  · rw [Frame.setCol_cols_pos f n v hc, find?_map_overwrite_ne n n2 v h]
  · rw [Frame.setCol_cols_neg f n v hc, List.find?_append]
    have hb : ¬((n, v).1 == n2) = true := by
      show ¬(n == n2) = true
      rw [beq_eq_false_iff_ne.mpr (fun hq => h hq.symm)]
      exact Bool.false_ne_true
    have e1 : List.find? (fun p : String × Col => p.1 == n2) [(n, v)] = none := by
      rw [@List.find?_cons_of_neg (String × Col) (fun p => p.1 == n2) (n, v) [] hb]
      rfl
    rw [e1, Option.or_none]

theorem Frame.getCol_dropCols (f : Frame) (n : String) (ns : List String)
    (h : n ∉ ns) : (f.dropCols ns).getCol n = f.getCol n := by
  rw [Frame.getCol_eq, Frame.getCol_eq, Frame.dropCols_cols, Frame.index_dropCols,
    find?_filter_kept n ns h]

theorem Frame.colNames_setCol (f : Frame) (n : String) (v : Col) :
    (f.setCol n v).colNames =
      if f.colNames.contains n then f.colNames else f.colNames ++ [n] := by
  by_cases h : f.colNames.contains n = true
  · rw [if_pos h]
    show (f.setCol n v).cols.map (fun p => p.1) = f.cols.map (fun p => p.1)
    rw [Frame.setCol_cols_pos f n v h, List.map_map]
    apply List.map_congr_left
    intro p _
    show (if p.1 == n then (n, v) else p).1 = p.1
    by_cases hp : (p.1 == n) = true
    · rw [if_pos hp]
      exact (beq_iff_eq.mp hp).symm
    · rw [if_neg hp]
  · rw [if_neg h]
    show (f.setCol n v).cols.map (fun p => p.1) = f.cols.map (fun p => p.1) ++ [n]
    rw [Frame.setCol_cols_neg f n v h, List.map_append]
    rfl

theorem map_fst_filter_contains (ns : List String) (cols : List (String × Col)) :
    (cols.filter (fun p => !(ns.contains p.1))).map (fun p : String × Col => p.1) =
      (cols.map (fun p : String × Col => p.1)).filter (fun s => !(ns.contains s)) := by
  induction cols with
  | nil => rfl
  | cons p rest ih =>
    rw [List.filter_cons, List.map_cons, List.filter_cons]
    by_cases hk : (!(ns.contains p.1)) = true
    · rw [if_pos hk, if_pos hk, List.map_cons, ih]
    · rw [if_neg hk, if_neg hk, ih]

theorem Frame.colNames_dropCols (f : Frame) (ns : List String) :
    (f.dropCols ns).colNames = f.colNames.filter (fun s => !(ns.contains s)) := by
  show (f.dropCols ns).cols.map (fun p => p.1) = _
  rw [Frame.dropCols_cols]
  exact map_fst_filter_contains ns f.cols

theorem applyCall_eq (a : FrameClient) (call : IndicatorCall) :
    applyCall a call =
      { df := if a.df.isEmpty then a.df else computeCall call a.df,
        max_size := a.max_size,
        indicators := upsert call.callName call a.indicators } := by
  cases call with
  | macd f s m nm =>
    show a.macd f s m nm = _
    unfold FrameClient.macd FrameClient.save_indicator
    split
    · rfl
    · rfl
  | atr p nm =>
    show a.atr p nm = _
    unfold FrameClient.atr FrameClient.save_indicator
    split
    · rfl
    · rfl
  | bbands p s nm =>
    show a.bbands p s nm = _
    unfold FrameClient.bbands FrameClient.save_indicator
    split
    · rfl
    · rfl

theorem applyCall_df_of_empty (a : FrameClient) (call : IndicatorCall)
    (h : a.df.isEmpty = true) : (applyCall a call).df = a.df := by
  rw [applyCall_eq]
  show (if a.df.isEmpty then a.df else computeCall call a.df) = a.df
  rw [h]
  rfl

theorem applyCall_df_of_nonempty (a : FrameClient) (call : IndicatorCall)
    (h : a.df.isEmpty = false) : (applyCall a call).df = computeCall call a.df := by
  rw [applyCall_eq]
  show (if a.df.isEmpty then a.df else computeCall call a.df) = computeCall call a.df
  rw [h]
  rfl

theorem applyCall_indicators (a : FrameClient) (call : IndicatorCall) :
    (applyCall a call).indicators = upsert call.callName call a.indicators := by
  rw [applyCall_eq]

theorem not_mem_append_singleton {a b : String} {l : List String}
    (h1 : a ∉ l) (h2 : a ≠ b) : a ∉ l ++ [b] := by
  intro hmem
  rcases List.mem_append.mp hmem with hA | hB
  · exact h1 hA
  · rw [List.mem_singleton] at hB
    exact h2 hB

theorem colNames_setCol_fresh (f : Frame) (n : String) (v : Col)
    (h : n ∉ f.colNames) : (f.setCol n v).colNames = f.colNames ++ [n] := by
  rw [Frame.colNames_setCol,
    if_neg (by rw [contains_eq_false_of_not_mem h]; exact Bool.false_ne_true)]

theorem filter_not_contains_of_disjoint {N ts : List String}
    (h : ∀ a ∈ ts, a ∉ N) :
    N.filter (fun s => !(ts.contains s)) = N :=
  List.filter_eq_self.mpr (fun a ha => by
    have hnot : a ∉ ts := fun hc => h a hc ha
    show (!(ts.contains a)) = true
    rw [contains_eq_false_of_not_mem hnot]
    rfl)

theorem filter_singleton_mem {a : String} {ts : List String} (h : a ∈ ts) :
    [a].filter (fun s => !(ts.contains s)) = [] := by
  have hc : ts.contains a = true := contains_eq_true_of_mem h
  rw [List.filter_cons]
  rw [if_neg (by rw [hc]; decide)]
  rfl

theorem filter_singleton_not_mem {a : String} {ts : List String} (h : a ∉ ts) :
    [a].filter (fun s => !(ts.contains s)) = [a] := by
  have hc : ts.contains a = false := contains_eq_false_of_not_mem h
  rw [List.filter_cons]
  rw [if_pos (by rw [hc]; decide)]
  rfl

theorem colNames_chain4 (df : Frame) (a1 a2 a3 a4 : String) (v1 v2 v3 v4 : Col)
    (h1 : a1 ∉ df.colNames) (h2 : a2 ∉ df.colNames) (h3 : a3 ∉ df.colNames)
    (h21 : a2 ≠ a1) (h31 : a3 ≠ a1) (h32 : a3 ≠ a2)
    (h41 : a4 ≠ a1) (h42 : a4 ≠ a2) (h43 : a4 ≠ a3) :
    (((((df.setCol a1 v1).setCol a2 v2).setCol a3 v3).setCol a4 v4).dropCols
      [a1, a2, a3]).colNames =
      if a4 ∈ df.colNames then df.colNames else df.colNames ++ [a4] := by
  have e1 : (df.setCol a1 v1).colNames = df.colNames ++ [a1] :=
    colNames_setCol_fresh df a1 v1 h1
  have m2 : a2 ∉ (df.setCol a1 v1).colNames := by
    rw [e1]
    exact not_mem_append_singleton h2 h21
  have e2 : ((df.setCol a1 v1).setCol a2 v2).colNames =
      (df.colNames ++ [a1]) ++ [a2] := by
    rw [colNames_setCol_fresh _ a2 v2 m2, e1]
  have m3 : a3 ∉ ((df.setCol a1 v1).setCol a2 v2).colNames := by
    rw [e2]
    exact not_mem_append_singleton (not_mem_append_singleton h3 h31) h32
  have e3 : (((df.setCol a1 v1).setCol a2 v2).setCol a3 v3).colNames =
      ((df.colNames ++ [a1]) ++ [a2]) ++ [a3] := by
    rw [colNames_setCol_fresh _ a3 v3 m3, e2]
  have hdisj : ∀ a ∈ [a1, a2, a3], a ∉ df.colNames := by
    intro a ha
    simp only [List.mem_cons, List.not_mem_nil, or_false] at ha
    rcases ha with rfl | rfl | rfl
    · exact h1
    · exact h2
    · exact h3
  have hm1 : a1 ∈ [a1, a2, a3] := by simp
  have hm2 : a2 ∈ [a1, a2, a3] := by simp
  have hm3 : a3 ∈ [a1, a2, a3] := by simp
  have hnm4 : a4 ∉ [a1, a2, a3] := by
    intro hc
    simp only [List.mem_cons, List.not_mem_nil, or_false] at hc
    rcases hc with hc | hc | hc
    · exact h41 hc
    · exact h42 hc
    · exact h43 hc
  by_cases h4 : a4 ∈ df.colNames
  · rw [if_pos h4]
    have hc4 : (((df.setCol a1 v1).setCol a2 v2).setCol a3 v3).colNames.contains a4 =
        true := by
      rw [e3]
      exact contains_eq_true_of_mem
        (List.mem_append_left _ (List.mem_append_left _ (List.mem_append_left _ h4)))
    have e4 : ((((df.setCol a1 v1).setCol a2 v2).setCol a3 v3).setCol a4 v4).colNames =
        ((df.colNames ++ [a1]) ++ [a2]) ++ [a3] := by
      rw [Frame.colNames_setCol, if_pos hc4, e3]
    rw [Frame.colNames_dropCols, e4, List.filter_append, List.filter_append,
      List.filter_append, filter_not_contains_of_disjoint hdisj,
      filter_singleton_mem hm1, filter_singleton_mem hm2, filter_singleton_mem hm3]
    simp
  · rw [if_neg h4]
    have m4 : a4 ∉ (((df.setCol a1 v1).setCol a2 v2).setCol a3 v3).colNames := by
      rw [e3]
      exact not_mem_append_singleton
        (not_mem_append_singleton (not_mem_append_singleton h4 h41) h42) h43
    have e4 : ((((df.setCol a1 v1).setCol a2 v2).setCol a3 v3).setCol a4 v4).colNames =
        (((df.colNames ++ [a1]) ++ [a2]) ++ [a3]) ++ [a4] := by
      rw [colNames_setCol_fresh _ a4 v4 m4, e3]
    rw [Frame.colNames_dropCols, e4, List.filter_append, List.filter_append,
      List.filter_append, List.filter_append, filter_not_contains_of_disjoint hdisj,
      filter_singleton_mem hm1, filter_singleton_mem hm2, filter_singleton_mem hm3,
      filter_singleton_not_mem hnm4]
    simp

theorem colNames_chain5 (df : Frame) (a1 a2 a3 a4 a5 : String)
    (v1 v2 v3 v4 v5 : Col)
    (h1 : a1 ∉ df.colNames) (h2 : a2 ∉ df.colNames) (h3 : a3 ∉ df.colNames)
    (h4 : a4 ∉ df.colNames)
    (h21 : a2 ≠ a1) (h31 : a3 ≠ a1) (h32 : a3 ≠ a2)
    (h41 : a4 ≠ a1) (h42 : a4 ≠ a2) (h43 : a4 ≠ a3)
    (h51 : a5 ≠ a1) (h52 : a5 ≠ a2) (h53 : a5 ≠ a3) (h54 : a5 ≠ a4) :
    ((((((df.setCol a1 v1).setCol a2 v2).setCol a3 v3).setCol a4 v4).setCol
      a5 v5).dropCols [a1, a2, a3, a4]).colNames =
      if a5 ∈ df.colNames then df.colNames else df.colNames ++ [a5] := by
  have e1 : (df.setCol a1 v1).colNames = df.colNames ++ [a1] :=
    colNames_setCol_fresh df a1 v1 h1
  have m2 : a2 ∉ (df.setCol a1 v1).colNames := by
    rw [e1]
    exact not_mem_append_singleton h2 h21
  have e2 : ((df.setCol a1 v1).setCol a2 v2).colNames =
      (df.colNames ++ [a1]) ++ [a2] := by
    rw [colNames_setCol_fresh _ a2 v2 m2, e1]
  have m3 : a3 ∉ ((df.setCol a1 v1).setCol a2 v2).colNames := by
    rw [e2]
    exact not_mem_append_singleton (not_mem_append_singleton h3 h31) h32
  have e3 : (((df.setCol a1 v1).setCol a2 v2).setCol a3 v3).colNames =
      ((df.colNames ++ [a1]) ++ [a2]) ++ [a3] := by
    rw [colNames_setCol_fresh _ a3 v3 m3, e2]
  have m4 : a4 ∉ (((df.setCol a1 v1).setCol a2 v2).setCol a3 v3).colNames := by
    rw [e3]
    exact not_mem_append_singleton
      (not_mem_append_singleton (not_mem_append_singleton h4 h41) h42) h43
  have e4 : ((((df.setCol a1 v1).setCol a2 v2).setCol a3 v3).setCol a4 v4).colNames =
      (((df.colNames ++ [a1]) ++ [a2]) ++ [a3]) ++ [a4] := by
    rw [colNames_setCol_fresh _ a4 v4 m4, e3]
  have hdisj : ∀ a ∈ [a1, a2, a3, a4], a ∉ df.colNames := by
    intro a ha
    simp only [List.mem_cons, List.not_mem_nil, or_false] at ha
    rcases ha with rfl | rfl | rfl | rfl
    · exact h1
    · exact h2
    · exact h3
    · exact h4
  have hm1 : a1 ∈ [a1, a2, a3, a4] := by simp
  have hm2 : a2 ∈ [a1, a2, a3, a4] := by simp
  have hm3 : a3 ∈ [a1, a2, a3, a4] := by simp
  have hm4 : a4 ∈ [a1, a2, a3, a4] := by simp
  have hnm5 : a5 ∉ [a1, a2, a3, a4] := by
    intro hc
    simp only [List.mem_cons, List.not_mem_nil, or_false] at hc
    rcases hc with hc | hc | hc | hc
    · exact h51 hc
    · exact h52 hc
    · exact h53 hc
    · exact h54 hc
  by_cases h5 : a5 ∈ df.colNames
  · rw [if_pos h5]
    have hc5 : ((((df.setCol a1 v1).setCol a2 v2).setCol a3 v3).setCol
        a4 v4).colNames.contains a5 = true := by
      rw [e4]
      exact contains_eq_true_of_mem
        (List.mem_append_left _ (List.mem_append_left _
          (List.mem_append_left _ (List.mem_append_left _ h5))))
    have e5 : (((((df.setCol a1 v1).setCol a2 v2).setCol a3 v3).setCol a4 v4).setCol
        a5 v5).colNames = (((df.colNames ++ [a1]) ++ [a2]) ++ [a3]) ++ [a4] := by
      rw [Frame.colNames_setCol, if_pos hc5, e4]
    rw [Frame.colNames_dropCols, e5, List.filter_append, List.filter_append,
      List.filter_append, List.filter_append, filter_not_contains_of_disjoint hdisj,
      filter_singleton_mem hm1, filter_singleton_mem hm2, filter_singleton_mem hm3,
      filter_singleton_mem hm4]
    simp
  · rw [if_neg h5]
    have m5 : a5 ∉ ((((df.setCol a1 v1).setCol a2 v2).setCol a3 v3).setCol
        a4 v4).colNames := by
      rw [e4]
      exact not_mem_append_singleton (not_mem_append_singleton
        (not_mem_append_singleton (not_mem_append_singleton h5 h51) h52) h53) h54
    have e5 : (((((df.setCol a1 v1).setCol a2 v2).setCol a3 v3).setCol a4 v4).setCol
        a5 v5).colNames =
        ((((df.colNames ++ [a1]) ++ [a2]) ++ [a3]) ++ [a4]) ++ [a5] := by
      rw [colNames_setCol_fresh _ a5 v5 m5, e4]
    rw [Frame.colNames_dropCols, e5, List.filter_append, List.filter_append,
      List.filter_append, List.filter_append, List.filter_append,
      filter_not_contains_of_disjoint hdisj,
      filter_singleton_mem hm1, filter_singleton_mem hm2, filter_singleton_mem hm3,
      filter_singleton_mem hm4, filter_singleton_not_mem hnm5]
    simp

theorem macdCompute_colNames (f s m : ℕ) (df : Frame)
    (h1 : "macd_fast" ∉ df.colNames) (h2 : "macd_slow" ∉ df.colNames)
    (h3 : "macd_diff" ∉ df.colNames) :
    (macdCompute f s m df).colNames =
      if "macd" ∈ df.colNames then df.colNames else df.colNames ++ ["macd"] := by
  unfold macdCompute
  exact colNames_chain4 df _ _ _ _ _ _ _ _ h1 h2 h3 (by decide) (by decide)
    (by decide) (by decide) (by decide) (by decide)

theorem atrCompute_colNames (p : ℕ) (df : Frame)
    (h1 : "tr_hl" ∉ df.colNames) (h2 : "tr_hp" ∉ df.colNames)
    (h3 : "tr_lp" ∉ df.colNames) (h4 : "tr" ∉ df.colNames) :
    (atrCompute p df).colNames =
      if "atr" ∈ df.colNames then df.colNames else df.colNames ++ ["atr"] := by
  unfold atrCompute
  exact colNames_chain5 df _ _ _ _ _ _ _ _ _ _ h1 h2 h3 h4 (by decide) (by decide)
    (by decide) (by decide) (by decide) (by decide) (by decide) (by decide)
    (by decide) (by decide)

theorem bbandsCompute_colNames (p : ℕ) (sd : ℝ) (df : Frame)
    (h1 : "bbands_ma" ∉ df.colNames) (h2 : "bbands_std" ∉ df.colNames)
    (h3 : "bbands_up" ∉ df.colNames) (h4 : "bbands_dn" ∉ df.colNames) :
    (bbandsCompute p sd df).colNames =
      if "bbands_percent" ∈ df.colNames then df.colNames
      else df.colNames ++ ["bbands_percent"] := by
  unfold bbandsCompute
  exact colNames_chain5 df _ _ _ _ _ _ _ _ _ _ h1 h2 h3 h4 (by decide) (by decide)
    (by decide) (by decide) (by decide) (by decide) (by decide) (by decide)
    (by decide) (by decide)

theorem macdCompute_index (f s m : ℕ) (df : Frame) :
    (macdCompute f s m df).index = df.index := by
  unfold macdCompute
  rw [Frame.index_dropCols, Frame.index_setCol, Frame.index_setCol,
    Frame.index_setCol, Frame.index_setCol]

theorem atrCompute_index (p : ℕ) (df : Frame) :
    (atrCompute p df).index = df.index := by
  unfold atrCompute
  rw [Frame.index_dropCols, Frame.index_setCol, Frame.index_setCol,
    Frame.index_setCol, Frame.index_setCol, Frame.index_setCol]

theorem bbandsCompute_index (p : ℕ) (sd : ℝ) (df : Frame) :
    (bbandsCompute p sd df).index = df.index := by
  unfold bbandsCompute
  rw [Frame.index_dropCols, Frame.index_setCol, Frame.index_setCol,
    Frame.index_setCol, Frame.index_setCol, Frame.index_setCol]

theorem upsert_mem_nodup (l : List (String × IndicatorCall)) (k : String)
    (v : IndicatorCall) (hmem : (k, v) ∈ l)
    (hnd : (l.map Prod.fst).Nodup) : upsert k v l = l := by
  induction l with
  | nil => simp at hmem
  | cons p rest ih =>
    rw [upsert]
    by_cases hk : p.1 = k
    · rw [if_pos hk]
      rcases List.mem_cons.mp hmem with h | h
    -- the head is the (unique) entry for k
      · rw [h]
      · exfalso
        have hk_in : k ∈ rest.map Prod.fst := by
          exact List.mem_map_of_mem _ h
        have : p.1 ∉ rest.map Prod.fst := by
          rw [List.map_cons] at hnd
          exact (List.nodup_cons.mp hnd).1
        exact this (hk ▸ hk_in)
    · rw [if_neg hk]
      have hmem' : (k, v) ∈ rest := by
        rcases List.mem_cons.mp hmem with h | h
        · exact absurd (congrArg Prod.fst h.symm) hk
        · exact h
      have hnd' : (rest.map Prod.fst).Nodup := by
        rw [List.map_cons] at hnd
        exact (List.nodup_cons.mp hnd).2
      rw [ih hmem' hnd']

theorem update_fold (l : List (String × IndicatorCall)) (a : FrameClient)
    (hsub : ∀ q ∈ l, q ∈ a.indicators ∧ q.2.callName = q.1)
    (hnd : (a.indicators.map Prod.fst).Nodup) :
    (l.foldl (fun acc p => applyCall acc p.2) a).indicators = a.indicators ∧
    (l.foldl (fun acc p => applyCall acc p.2) a).df =
      l.foldl (fun d q => if d.isEmpty then d else computeCall q.2 d) a.df := by
  induction l generalizing a with
  | nil => exact ⟨rfl, rfl⟩
  | cons q rest ih =>
    have hq := hsub q (List.mem_cons_self q rest)
    have hstep_ind : (applyCall a q.2).indicators = a.indicators := by
      rw [applyCall_eq]
      show upsert q.2.callName q.2 a.indicators = a.indicators
      rw [hq.2]
      have : (q.1, q.2) ∈ a.indicators := by
        have := hq.1
        rwa [show ((q.1, q.2) : String × IndicatorCall) = q from rfl]
      exact upsert_mem_nodup _ _ _ this hnd
    have hstep_df : (applyCall a q.2).df =
        if a.df.isEmpty then a.df else computeCall q.2 a.df := by
      rw [applyCall_eq]
    have hrec := ih (applyCall a q.2)
      (fun p hp => by
        rw [hstep_ind]
        exact hsub p (List.mem_cons_of_mem _ hp))
      (by rw [hstep_ind]; exact hnd)
    refine ⟨?_, ?_⟩
    · rw [List.foldl_cons, hrec.1, hstep_ind]
    · rw [List.foldl_cons, List.foldl_cons, hrec.2, hstep_df]

theorem foldl_df_of_empty (l : List (String × IndicatorCall)) (a : FrameClient)
    (h : a.df.index = []) :
    (l.foldl (fun acc p => applyCall acc p.2) a).df = a.df := by
  induction l generalizing a with
  | nil => rfl
  | cons q rest ih =>
    have hemp : a.df.isEmpty = true := by simp [Frame.isEmpty, h]
    have hdf : (applyCall a q.2).df = a.df := by
      rw [applyCall_eq]
      show (if a.df.isEmpty then a.df else computeCall q.2 a.df) = a.df
      rw [if_pos hemp]
    rw [List.foldl_cons, ih (applyCall a q.2) (by rw [hdf]; exact h), hdf]

/-! ## Claims C1, C2, C4: the `add_rows` merge/dedup/eviction contract -/

/-- C1 (counterexample): a strictly increasing buffer `[1,2]` and
strictly increasing rows `[2,3]` whose leading bar overlaps the buffer's
trailing bar leave a duplicated timestamp after `add_rows`, because an
overlap at row index 0 makes the source append everything. -/
theorem add_rows_dedup_cex :
    clientB12.df.index.Pairwise (· < ·) ∧
    rowsR23.index.Pairwise (· < ·) ∧
    rowsR23.index[0]? = some (clientB12.df.index.getLastD 0) ∧
    ¬ ((clientB12.add_rows rowsR23).df.index).Nodup := by
  decide

/-- C1 (amended): if the buffer's timestamps are strictly increasing,
the new rows' timestamps are strictly increasing, and the buffer's last
timestamp occurs in the new rows at a positive index, then after
`add_rows` the buffer's timestamps are strictly increasing and contain
no duplicates. -/
theorem add_rows_dedup_sorted (c : FrameClient) (rows : Frame)
    (hne : c.df.index ≠ [])
    (hB : c.df.index.Pairwise (· < ·))
    (hR : rows.index.Pairwise (· < ·))
    (h0 : 0 < overlapIdx (c.df.index.getLastD 0) rows.index)
    (hlt : overlapIdx (c.df.index.getLastD 0) rows.index < rows.index.length) :
    ((c.add_rows rows).df.index).Pairwise (· < ·) ∧
    ((c.add_rows rows).df.index).Nodup := by
  have hmerge := mergeRows_index_of_overlap c rows hne h0 hlt
  have hi_val : rows.index[overlapIdx (c.df.index.getLastD 0) rows.index]? =
      some (c.df.index.getLastD 0) := overlapIdx_getElem? _ rows.index hlt
  have hcross : ∀ a ∈ c.df.index,
      ∀ b ∈ rows.index.drop (overlapIdx (c.df.index.getLastD 0) rows.index + 1), a < b := by
    intro a ha b hb
    have ha' : a ≤ c.df.index.getLastD 0 := le_getLastD_of_pairwise hB ha
    obtain ⟨j, hj, rfl⟩ := List.mem_iff_getElem.mp hb
    rw [List.getElem_drop]
    have hjlen : overlapIdx (c.df.index.getLastD 0) rows.index + 1 + j <
        rows.index.length := by
      rw [List.length_drop] at hj
      omega
    have hij : rows.index[overlapIdx (c.df.index.getLastD 0) rows.index] =
        c.df.index.getLastD 0 := by
      rw [List.getElem?_eq_getElem hlt] at hi_val
      exact Option.some_inj.mp hi_val
    have hp := List.pairwise_iff_getElem.mp hR _ _ hlt hjlen (by omega)
    rw [hij] at hp
    exact lt_of_le_of_lt ha' hp
  have hpair : (c.df.index ++
      rows.index.drop (overlapIdx (c.df.index.getLastD 0) rows.index + 1)).Pairwise (· < ·) :=
    List.pairwise_append.mpr
      ⟨hB, List.Pairwise.sublist (List.drop_sublist _ _) hR, hcross⟩
  have hfinal : ((c.add_rows rows).df.index).Pairwise (· < ·) := by
    rw [add_rows_index_drop, hmerge]
    exact List.Pairwise.sublist (List.drop_sublist _ _) hpair
  exact ⟨hfinal, hfinal.imp (fun h => ne_of_lt h)⟩

/-- C1 (witness): a concrete overlap at positive index, dedup succeeds. -/
theorem add_rows_dedup_sorted_witness :
    0 < overlapIdx (client123.df.index.getLastD 0) rows234.index ∧
    ((client123.add_rows rows234).df.index).Pairwise (· < ·) ∧
    ((client123.add_rows rows234).df.index).Nodup := by
  refine ⟨by decide, ?_, ?_⟩
  · exact (add_rows_dedup_sorted client123 rows234 (by decide) (by decide)
      (by decide) (by decide) (by decide)).1
  · exact (add_rows_dedup_sorted client123 rows234 (by decide) (by decide)
      (by decide) (by decide) (by decide)).2

/-- C2: after any `add_rows` call the buffer holds at most `max_size`
bars, and when the merged length exceeds the cap exactly the oldest
`length - max_size` rows are dropped. -/
theorem add_rows_bound (c : FrameClient) (rows : Frame) :
    (c.add_rows rows).df.length ≤ c.max_size ∧
    (c.max_size < (c.mergeRows rows).length →
      (c.add_rows rows).df =
        (c.mergeRows rows).dropRows ((c.mergeRows rows).length - c.max_size)) := by
  constructor
  · rw [Frame.length_def, add_rows_index_drop, List.length_drop, Frame.length_def]
    omega
  · intro h
    rw [add_rows_df_eq, if_pos]
    rw [Frame.length_def] at h ⊢
    omega

/-- C2 (witness): a two-bar capacity-2 buffer receiving one fresh bar
evicts exactly its oldest bar. -/
theorem add_rows_bound_witness :
    clientCap2.max_size < (clientCap2.mergeRows rows3).length ∧
    (clientCap2.add_rows rows3).df =
      (clientCap2.mergeRows rows3).dropRows
        ((clientCap2.mergeRows rows3).length - clientCap2.max_size) :=
  ⟨by decide, (add_rows_bound clientCap2 rows3).2 (by decide)⟩

/-- C4 (counterexample): with buffer last timestamp 5 and rows
`[5,6,7]`, the source finds the overlap at index 0 and appends all rows
(result `[5,5,6,7]`), while the claim's scan for the first DIFFERING
timestamp gives index 1 and would append only `[7]`. -/
theorem add_rows_overlap_scan_cex :
    (client5.add_rows rows567).df.index = [5, 5, 6, 7] ∧
    (add_rowsC4spec client5 rows567).df.index = [5, 7] ∧
    (client5.add_rows rows567).df.index ≠ (add_rowsC4spec client5 rows567).df.index := by
  decide

/-- C4 (amended): for a non-empty buffer, `i` is the index of the first
row whose timestamp EQUALS the buffer's last timestamp (`len(rows)` when
none matches); if `i = len(rows)` or `i = 0` all rows are appended,
otherwise exactly `rows[i+1:]`, and eviction happens afterwards. -/
theorem add_rows_overlap_scan (c : FrameClient) (rows : Frame)
    (hne : c.df.index ≠ []) :
    c.mergeRows rows =
      (if rows.index.findIdx (fun t => t == c.df.index.getLastD 0) = rows.length ∨
          rows.index.findIdx (fun t => t == c.df.index.getLastD 0) = 0 then
        c.df.append rows
      else
        c.df.append
          (rows.dropRows (rows.index.findIdx (fun t => t == c.df.index.getLastD 0) + 1))) ∧
    (c.add_rows rows).df =
      (if 0 < (c.mergeRows rows).length - c.max_size then
        (c.mergeRows rows).dropRows ((c.mergeRows rows).length - c.max_size)
      else c.mergeRows rows) := by
  constructor
  · have hemp : c.df.isEmpty = false := by
      simp [Frame.isEmpty, List.isEmpty_eq_false, hne]
    unfold FrameClient.mergeRows
    simp only [hemp, Bool.false_eq_true, if_false, overlapIdx_eq_findIdx]
  · exact add_rows_df_eq c rows

/-- C4 (witness): the buffer `[5]` with rows `[5,6,7]` takes the
append-all branch, since the matching scan stops at index 0. -/
theorem add_rows_overlap_scan_witness :
    client5.df.index ≠ [] ∧
    client5.mergeRows rows567 = client5.df.append rows567 := by
  refine ⟨by decide, ?_⟩
  have h := (add_rows_overlap_scan client5 rows567 (by decide)).1
  rwa [if_pos (by decide)] at h

/-! ## Claims C5, C7, C8: the robot facade -/

/-- C5: `open_trade` calls the broker's pending placement exactly when
the order type is `Entry` and the immediate placement otherwise, returns
the broker's order id (or null when the broker returned no order), and
in every case appends exactly one (possibly absent) order to the
portfolio. -/
theorem open_trade_spec (api : FxcmApi) (trade : Trade) (portfolio : Portfolio) :
    (FxRobot.open_trade api trade portfolio).2.orders =
      portfolio.orders ++
        [if trade.get_order_type = "Entry" then api.create_entry_order trade.get_fxcm_args
          else api.open_trade trade.get_fxcm_args] ∧
    (FxRobot.open_trade api trade portfolio).1 =
      (if trade.get_order_type = "Entry" then api.create_entry_order trade.get_fxcm_args
        else api.open_trade trade.get_fxcm_args).map Order.get_orderId ∧
    (FxRobot.open_trade api trade portfolio).2.orders.length =
      portfolio.orders.length + 1 ∧
    (trade.get_order_type = "Entry" →
      (FxRobot.open_trade api trade portfolio).1 =
        (api.create_entry_order trade.get_fxcm_args).map Order.get_orderId) ∧
    (trade.get_order_type ≠ "Entry" →
      (FxRobot.open_trade api trade portfolio).1 =
        (api.open_trade trade.get_fxcm_args).map Order.get_orderId) := by
  refine ⟨rfl, rfl, ?_, ?_, ?_⟩
  · simp [FxRobot.open_trade, Portfolio.add_order]
  · intro h
    simp [FxRobot.open_trade, h]
  · intro h
    simp [FxRobot.open_trade, h]

/-- C5 (witness): a broker stub acknowledging with id `"42"` yields that
id and one recorded portfolio order. -/
theorem open_trade_spec_witness :
    tradeEntry.get_order_type = "Entry" ∧
    (FxRobot.open_trade apiStub tradeEntry portfolio0).1 = some "42" ∧
    (FxRobot.open_trade apiStub tradeEntry portfolio0).2.orders.length = 1 := by
  refine ⟨rfl, ?_, ?_⟩
  · have h := (open_trade_spec apiStub tradeEntry portfolio0).2.2.2.1 rfl
    simpa [apiStub, order42, Order.get_orderId] using h
  · have h := (open_trade_spec apiStub tradeEntry portfolio0).2.2.1
    simpa [portfolio0] using h

/-- C7: evaluating `subscribe_instrument` at the single-symbol string
`"EUR/USD"` shows the character explosion: `list(symbols)` splits a
python string into its characters, so the broker is called once per
CHARACTER instead of once for the symbol, while a list input behaves as
the claim states. -/
theorem subscribe_instrument_char_explosion :
    FxRobot.subscribe_instrument (fun s => s) (.one "EUR/USD") =
      ["E", "U", "R", "/", "U", "S", "D"] ∧
    FxRobot.subscribe_instrument (fun s => s) (.one "EUR/USD") ≠ ["EUR/USD"] ∧
    FxRobot.unsubscribe_instrument (fun s => s) (.one "EUR/USD") =
      ["E", "U", "R", "/", "U", "S", "D"] ∧
    FxRobot.subscribe_instrument (fun s => s) (.many ["EUR/USD", "GBP/USD"]) =
      ["EUR/USD", "GBP/USD"] := by
  refine ⟨by decide, by decide, by decide, by decide⟩

/-- C8: the scheduler normalizes the last timestamp to UTC (absent means
now, naive is assumed UTC, aware is converted), sleeps
`max(0.1, last + period - now)` seconds, sleeps exactly the 0.1 floor
whenever the timestamp is at least one period in the past, and never
sleeps a non-positive duration. -/
theorem sleep_till_next_bar_spec (lts : Option PdTimestamp) (td now : ℚ) :
    FxRobot.sleep_till_next_bar lts td now =
      max (1 / 10) (utcNormalize lts now + td - now) ∧
    1 / 10 ≤ FxRobot.sleep_till_next_bar lts td now ∧
    0 < FxRobot.sleep_till_next_bar lts td now ∧
    (utcNormalize lts now + td ≤ now →
      FxRobot.sleep_till_next_bar lts td now = 1 / 10) := by
  have h1 : FxRobot.sleep_till_next_bar lts td now =
      max (1 / 10) (utcNormalize lts now + td - now) := by
    unfold FxRobot.sleep_till_next_bar utcNormalize
    cases lts with
    | none => simp
    | some t =>
      cases htz : t.tz with
      | none => simp [htz, PdTimestamp.tz_localize_utc]
      | some o => simp [htz, PdTimestamp.tz_convert_utc]
  refine ⟨h1, ?_, ?_, ?_⟩
  · rw [h1]
    exact le_max_left _ _
  · rw [h1]
    exact lt_of_lt_of_le (by norm_num) (le_max_left _ _)
  · intro h
    rw [h1, max_eq_left]
    linarith

/-- C8 (witness): an aware timestamp one hour east and far in the past
sleeps exactly the 0.1-second floor. -/
theorem sleep_till_next_bar_witness :
    utcNormalize (some (PdTimestamp.mk 0 (some 3600))) 100 + 60 ≤ 100 ∧
    FxRobot.sleep_till_next_bar (some (PdTimestamp.mk 0 (some 3600))) 60 100 = 1 / 10 :=
  ⟨by norm_num [utcNormalize],
    (sleep_till_next_bar_spec (some (PdTimestamp.mk 0 (some 3600))) 60 100).2.2.2
      (by norm_num [utcNormalize])⟩

/-! ## Claims C6, C9, C10: indicator registration, replay, naming -/

/-- C6 (counterexample): a SECOND direct invocation of `macd` on a
still-empty buffer re-records the spec but computes nothing — the frame
stays the empty frame — although running the macd body would have added
a `macd` column; so "every later invocation computes" fails while the
buffer is empty. -/
theorem indicator_replay_cex :
    ((emptyClient.macd 12 26 9 "macd").macd 12 26 9 "macd").df = emptyFrame ∧
    macdCompute 12 26 9 emptyFrame ≠ emptyFrame := by
  constructor
  · rfl
  · intro h
    have hcols : (macdCompute 12 26 9 emptyFrame).cols = [("macd", [])] := rfl
    have h2 := congrArg Frame.cols h
    rw [hcols] at h2
    exact List.cons_ne_nil _ _ h2

/-- C6 (amended): a registration call on an empty buffer only records
the spec; a registration call while the buffer is non-empty both
overwrites the stored spec and immediately computes the indicator over
the entire retained frame; and `update()` replays every registered
indicator's computation in registration order. -/
theorem indicator_registration_replay (c c₀ : FrameClient)
    (f s m p : ℕ) (sd : ℝ) (nm : String)
    (hne : c.df.isEmpty = false) (hem : c₀.df.isEmpty = true)
    (hnd : (c.indicators.map Prod.fst).Nodup)
    (hnames : ∀ q ∈ c.indicators, q.2.callName = q.1) :
    ((c₀.macd f s m nm).df = c₀.df ∧
      (c₀.macd f s m nm).indicators = upsert nm (.macd f s m nm) c₀.indicators) ∧
    ((c₀.atr p nm).df = c₀.df ∧
      (c₀.atr p nm).indicators = upsert nm (.atr p nm) c₀.indicators) ∧
    ((c₀.bbands p sd nm).df = c₀.df ∧
      (c₀.bbands p sd nm).indicators = upsert nm (.bbands p sd nm) c₀.indicators) ∧
    ((c.macd f s m nm).df = macdCompute f s m c.df ∧
      (c.macd f s m nm).indicators = upsert nm (.macd f s m nm) c.indicators) ∧
    ((c.atr p nm).df = atrCompute p c.df ∧
      (c.atr p nm).indicators = upsert nm (.atr p nm) c.indicators) ∧
    ((c.bbands p sd nm).df = bbandsCompute p sd c.df ∧
      (c.bbands p sd nm).indicators = upsert nm (.bbands p sd nm) c.indicators) ∧
    c.update.indicators = c.indicators ∧
    c.update.df =
      c.indicators.foldl (fun d q => if d.isEmpty then d else computeCall q.2 d) c.df := by
  have hu := update_fold c.indicators c (fun q hq => ⟨hq, hnames q hq⟩) hnd
  exact ⟨⟨applyCall_df_of_empty c₀ (.macd f s m nm) hem,
      applyCall_indicators c₀ (.macd f s m nm)⟩,
    ⟨applyCall_df_of_empty c₀ (.atr p nm) hem,
      applyCall_indicators c₀ (.atr p nm)⟩,
    ⟨applyCall_df_of_empty c₀ (.bbands p sd nm) hem,
      applyCall_indicators c₀ (.bbands p sd nm)⟩,
    ⟨applyCall_df_of_nonempty c (.macd f s m nm) hne,
      applyCall_indicators c (.macd f s m nm)⟩,
    ⟨applyCall_df_of_nonempty c (.atr p nm) hne,
      applyCall_indicators c (.atr p nm)⟩,
    ⟨applyCall_df_of_nonempty c (.bbands p sd nm) hne,
      applyCall_indicators c (.bbands p sd nm)⟩,
    hu.1, hu.2⟩

/-- C6 (witness): a non-empty one-indicator client recomputes on a
direct call, and its registry survives an `update()` unchanged. -/
theorem indicator_registration_replay_witness :
    clientReg.df.isEmpty = false ∧
    (clientReg.macd 2 4 2 "macd").df = macdCompute 2 4 2 clientReg.df ∧
    clientReg.update.indicators = clientReg.indicators := by
  have h := indicator_registration_replay clientReg emptyClient 2 4 2 3 2 "macd"
    rfl rfl (by decide) (by decide)
  exact ⟨rfl, h.2.2.2.1.1, h.2.2.2.2.2.2.1⟩

/-- C9: while the frame is empty, `update()` and every registration
method leave the frame unchanged (still empty, no columns added),
because the indicator bodies are skipped. -/
theorem empty_frame_noop (c : FrameClient) (f s m p : ℕ) (sd : ℝ) (nm : String)
    (h : c.df.index = []) :
    c.update.df = c.df ∧
    (c.macd f s m nm).df = c.df ∧
    (c.atr p nm).df = c.df ∧
    (c.bbands p sd nm).df = c.df := by
  have hemp : c.df.isEmpty = true := by
    simp [Frame.isEmpty, h]
  exact ⟨foldl_df_of_empty c.indicators c h,
    applyCall_df_of_empty c (.macd f s m nm) hemp,
    applyCall_df_of_empty c (.atr p nm) hemp,
    applyCall_df_of_empty c (.bbands p sd nm) hemp⟩

/-- C9 (witness): an empty-frame client with two registered indicators
survives an `update()` with its frame untouched. -/
theorem empty_frame_noop_witness :
    emptyClientReg.df.index = [] ∧
    emptyClientReg.update.df = emptyClientReg.df :=
  ⟨rfl, (empty_frame_noop emptyClientReg 12 26 9 20 2 "bbands" rfl).1⟩

/-- C10: the `name` argument only selects the registry key — the frame
effect of each registration method is independent of `name`, the column
written is always the fixed `macd` / `atr` / `bbands_percent`, and a
second registration of the same method under another name writes into
the same column, adding no new one. -/
theorem indicator_name_only_registry (c : FrameClient)
    (f s m p pb : ℕ) (sd : ℝ) (n1 n2 : String)
    (hne : c.df.isEmpty = false)
    (hfresh : ∀ a ∈ ["macd_fast", "macd_slow", "macd_diff", "macd",
      "tr_hl", "tr_hp", "tr_lp", "tr", "atr",
      "bbands_ma", "bbands_std", "bbands_up", "bbands_dn", "bbands_percent"],
      a ∉ c.df.colNames) :
    ((c.macd f s m n1).df = (c.macd f s m n2).df ∧
      (c.atr p n1).df = (c.atr p n2).df ∧
      (c.bbands pb sd n1).df = (c.bbands pb sd n2).df) ∧
    ((c.macd f s m n1).df.colNames = c.df.colNames ++ ["macd"] ∧
      (c.atr p n1).df.colNames = c.df.colNames ++ ["atr"] ∧
      (c.bbands pb sd n1).df.colNames = c.df.colNames ++ ["bbands_percent"]) ∧
    (((c.macd f s m n1).macd f s m n2).df.colNames = (c.macd f s m n1).df.colNames ∧
      ((c.atr p n1).atr p n2).df.colNames = (c.atr p n1).df.colNames ∧
      ((c.bbands pb sd n1).bbands pb sd n2).df.colNames =
        (c.bbands pb sd n1).df.colNames) := by
  have hmacd1 : (c.macd f s m n1).df = macdCompute f s m c.df :=
    applyCall_df_of_nonempty c (.macd f s m n1) hne
  have hmacd2 : (c.macd f s m n2).df = macdCompute f s m c.df :=
    applyCall_df_of_nonempty c (.macd f s m n2) hne
  have hatr1 : (c.atr p n1).df = atrCompute p c.df :=
    applyCall_df_of_nonempty c (.atr p n1) hne
  have hatr2 : (c.atr p n2).df = atrCompute p c.df :=
    applyCall_df_of_nonempty c (.atr p n2) hne
  have hbb1 : (c.bbands pb sd n1).df = bbandsCompute pb sd c.df :=
    applyCall_df_of_nonempty c (.bbands pb sd n1) hne
  have hbb2 : (c.bbands pb sd n2).df = bbandsCompute pb sd c.df :=
    applyCall_df_of_nonempty c (.bbands pb sd n2) hne
  have hNm : (c.macd f s m n1).df.colNames = c.df.colNames ++ ["macd"] := by
    rw [hmacd1, macdCompute_colNames f s m c.df (hfresh _ (by simp))
      (hfresh _ (by simp)) (hfresh _ (by simp)), if_neg (hfresh _ (by simp))]
  have hNa : (c.atr p n1).df.colNames = c.df.colNames ++ ["atr"] := by
    rw [hatr1, atrCompute_colNames p c.df (hfresh _ (by simp)) (hfresh _ (by simp))
      (hfresh _ (by simp)) (hfresh _ (by simp)), if_neg (hfresh _ (by simp))]
  have hNb : (c.bbands pb sd n1).df.colNames = c.df.colNames ++ ["bbands_percent"] := by
    rw [hbb1, bbandsCompute_colNames pb sd c.df (hfresh _ (by simp)) (hfresh _ (by simp))
      (hfresh _ (by simp)) (hfresh _ (by simp)), if_neg (hfresh _ (by simp))]
  have hnem : (c.macd f s m n1).df.isEmpty = false := by
    show (c.macd f s m n1).df.index.isEmpty = false
    rw [hmacd1, macdCompute_index]
    exact hne
  have hnea : (c.atr p n1).df.isEmpty = false := by
    show (c.atr p n1).df.index.isEmpty = false
    rw [hatr1, atrCompute_index]
    exact hne
  have hneb : (c.bbands pb sd n1).df.isEmpty = false := by
    show (c.bbands pb sd n1).df.index.isEmpty = false
    rw [hbb1, bbandsCompute_index]
    exact hne
  refine ⟨⟨by rw [hmacd1, hmacd2], by rw [hatr1, hatr2], by rw [hbb1, hbb2]⟩,
    ⟨hNm, hNa, hNb⟩, ?_, ?_, ?_⟩
  · have hdf2 : ((c.macd f s m n1).macd f s m n2).df =
        macdCompute f s m (c.macd f s m n1).df :=
      applyCall_df_of_nonempty (c.macd f s m n1) (.macd f s m n2) hnem
    rw [hdf2, macdCompute_colNames f s m _
      (by rw [hNm]; exact not_mem_append_singleton (hfresh _ (by simp)) (by decide))
      (by rw [hNm]; exact not_mem_append_singleton (hfresh _ (by simp)) (by decide))
      (by rw [hNm]; exact not_mem_append_singleton (hfresh _ (by simp)) (by decide)),
      if_pos (by rw [hNm]; exact List.mem_append_right _ (by simp))]
  · have hdf2 : ((c.atr p n1).atr p n2).df = atrCompute p (c.atr p n1).df :=
      applyCall_df_of_nonempty (c.atr p n1) (.atr p n2) hnea
    rw [hdf2, atrCompute_colNames p _
      (by rw [hNa]; exact not_mem_append_singleton (hfresh _ (by simp)) (by decide))
      (by rw [hNa]; exact not_mem_append_singleton (hfresh _ (by simp)) (by decide))
      (by rw [hNa]; exact not_mem_append_singleton (hfresh _ (by simp)) (by decide))
      (by rw [hNa]; exact not_mem_append_singleton (hfresh _ (by simp)) (by decide)),
      if_pos (by rw [hNa]; exact List.mem_append_right _ (by simp))]
  · have hdf2 : ((c.bbands pb sd n1).bbands pb sd n2).df =
        bbandsCompute pb sd (c.bbands pb sd n1).df :=
      applyCall_df_of_nonempty (c.bbands pb sd n1) (.bbands pb sd n2) hneb
    rw [hdf2, bbandsCompute_colNames pb sd _
      (by rw [hNb]; exact not_mem_append_singleton (hfresh _ (by simp)) (by decide))
      (by rw [hNb]; exact not_mem_append_singleton (hfresh _ (by simp)) (by decide))
      (by rw [hNb]; exact not_mem_append_singleton (hfresh _ (by simp)) (by decide))
      (by rw [hNb]; exact not_mem_append_singleton (hfresh _ (by simp)) (by decide)),
      if_pos (by rw [hNb]; exact List.mem_append_right _ (by simp))]

/-! ## Helper lemmas for the Bollinger claim -/

theorem getD_eq_getElem? (l : Col) (t : ℕ) :
    l.getD t none = (l[t]?).getD none := List.getD_eq_getElem?_getD l t none

theorem rollingApply_length (p : ℕ) (f : List ℝ → Option ℝ) (xs : Col) :
    (rollingApply p f xs).length = xs.length := by
  unfold rollingApply
  rw [List.length_map, List.length_range]

theorem rollingApply_getElem? (p : ℕ) (f : List ℝ → Option ℝ) (xs : Col)
    (t : ℕ) (h : t < xs.length) :
    (rollingApply p f xs)[t]? =
      some (if t + 1 < p then none
        else
          if ((xs.take (t + 1)).drop (t + 1 - p)).all Option.isSome then
            f (((xs.take (t + 1)).drop (t + 1 - p)).filterMap id)
          else none) := by
  unfold rollingApply
  rw [List.getElem?_map, List.getElem?_range h]
  rfl

theorem rollingApply_getElem?_early (p : ℕ) (f : List ℝ → Option ℝ) (xs : Col)
    (t : ℕ) (h : t < xs.length) (hp : t + 1 < p) :
    (rollingApply p f xs)[t]? = some none := by
  rw [rollingApply_getElem? p f xs t h, if_pos hp]

theorem getElem?_some_mem {l : Col} {t : ℕ} {x : Option ℝ}
    (h : l[t]? = some x) : x ∈ l := by
  have ht : t < l.length := by
    by_contra hc
    rw [List.getElem?_eq_none (by omega)] at h
    exact Option.noConfusion h
  rw [List.getElem?_eq_getElem ht] at h
  exact (Option.some_inj.mp h) ▸ List.getElem_mem ht

theorem std_of_mean_getD_none (p : ℕ) (xs : Col) (t : ℕ)
    (h : t + 1 < 2 * p - 1) :
    (rollingStd p (rollingMean p xs)).getD t none = none := by
  rw [getD_eq_getElem?]
  unfold rollingStd
  by_cases hlen : t < xs.length
  · have hlen' : t < (rollingMean p xs).length := by
      unfold rollingMean
      rw [rollingApply_length]
      exact hlen
    by_cases hp : t + 1 < p
    · rw [rollingApply_getElem?_early p _ _ t hlen' hp]
      rfl
    · rw [rollingApply_getElem? p _ _ t hlen', if_neg hp]
      -- the window starts at the still-missing position t + 1 - p of ma
      have hearly : (t + 1 - p) + 1 < p := by omega
      have hlt : t + 1 - p < xs.length := by omega
      have hw0 : (((rollingMean p xs).take (t + 1)).drop (t + 1 - p))[0]? =
          some none := by
        rw [List.getElem?_drop, List.getElem?_take]
        rw [if_pos (by omega)]
        show (rollingApply p (fun w => some (w.sum / (w.length : ℝ))) xs)[t + 1 - p + 0]? =
          some none
        exact rollingApply_getElem?_early _ _ _ _ (by omega) (by omega)
      have hmem : (none : Option ℝ) ∈
          ((rollingMean p xs).take (t + 1)).drop (t + 1 - p) :=
        getElem?_some_mem hw0
      have hall : (((rollingMean p xs).take (t + 1)).drop (t + 1 - p)).all
          Option.isSome = false := by
        cases hb : (((rollingMean p xs).take (t + 1)).drop (t + 1 - p)).all
            Option.isSome with
        | false => rfl
        | true =>
          exfalso
          have := List.all_eq_true.mp hb _ hmem
          exact Bool.noConfusion this
      rw [hall]
      rfl
  · have : (rollingMean p xs).length ≤ t := by
      unfold rollingMean
      rw [rollingApply_length]
      omega
    rw [List.getElem?_eq_none (by rwa [rollingApply_length])]
    rfl

theorem getD_some_getElem? {l : Col} {t : ℕ} {x : ℝ}
    (h : l.getD t none = some x) : l[t]? = some (some x) := by
  rw [getD_eq_getElem?] at h
  rcases hl : l[t]? with _ | v
  · rw [hl] at h
    exact Option.noConfusion h
  · rw [hl] at h
    rw [show v = some x from h]

theorem getD_none_getElem? {l : Col} {t : ℕ}
    (h : l.getD t none = none) : l[t]? = none ∨ l[t]? = some none := by
  rw [getD_eq_getElem?] at h
  rcases hl : l[t]? with _ | v
  · exact Or.inl rfl
  · rw [hl] at h
    exact Or.inr (by rw [show v = none from h])

theorem getD_colZip_none_right (f : ℝ → ℝ → ℝ) (a b : Col) (t : ℕ)
    (h : b.getD t none = none) : (colZip f a b).getD t none = none := by
  rw [getD_eq_getElem?]
  unfold colZip
  rw [List.getElem?_zipWith]
  rcases getD_none_getElem? h with hb | hb <;> rw [hb]
  · rcases a[t]? with _ | x
    · rfl
    · rfl
  · rcases a[t]? with _ | x
    · rfl
    · rcases x with _ | u
      · rfl
      · rfl

theorem getD_colZip_some (f : ℝ → ℝ → ℝ) (a b : Col) (t : ℕ) (x y : ℝ)
    (ha : a.getD t none = some x) (hb : b.getD t none = some y) :
    (colZip f a b).getD t none = some (f x y) := by
  rw [getD_eq_getElem?]
  unfold colZip
  rw [List.getElem?_zipWith, getD_some_getElem? ha, getD_some_getElem? hb]
  rfl

theorem getD_colSmul_none (s : ℝ) (a : Col) (t : ℕ)
    (h : a.getD t none = none) : (colSmul s a).getD t none = none := by
  rw [getD_eq_getElem?]
  unfold colSmul
  rw [List.getElem?_map]
  rcases getD_none_getElem? h with ha | ha <;> rw [ha] <;> rfl

theorem getD_colSmul_some (s : ℝ) (a : Col) (t : ℕ) (x : ℝ)
    (h : a.getD t none = some x) : (colSmul s a).getD t none = some (s * x) := by
  rw [getD_eq_getElem?]
  unfold colSmul
  rw [List.getElem?_map, getD_some_getElem? h]
  rfl

theorem getD_colDiv_none_left (a b : Col) (t : ℕ)
    (h : a.getD t none = none) : (colDiv a b).getD t none = none := by
  rw [getD_eq_getElem?]
  unfold colDiv
  rw [List.getElem?_zipWith]
  rcases getD_none_getElem? h with ha | ha <;> rw [ha]
  · rcases b[t]? with _ | y
    · rfl
    · rfl
  · rcases b[t]? with _ | y
    · rfl
    · rfl

theorem getD_colDiv_zero_den (a b : Col) (t : ℕ) (y : ℝ)
    (hb : b.getD t none = some y) (hy : y = 0) :
    (colDiv a b).getD t none = none := by
  rw [getD_eq_getElem?]
  unfold colDiv
  rw [List.getElem?_zipWith, getD_some_getElem? hb]
  rcases ha : a[t]? with _ | x
  · rfl
  · rcases x with _ | u
    · rfl
    · show (some (if y = 0 then none else some (u / y))).getD none = none
      rw [if_pos hy]
      rfl

theorem getD_colDiv_some (a b : Col) (t : ℕ) (x y : ℝ)
    (ha : a.getD t none = some x) (hb : b.getD t none = some y) (hy : y ≠ 0) :
    (colDiv a b).getD t none = some (x / y) := by
  rw [getD_eq_getElem?]
  unfold colDiv
  rw [List.getElem?_zipWith, getD_some_getElem? ha, getD_some_getElem? hb]
  show (some (if y = 0 then none else some (x / y))).getD none = some (x / y)
  rw [if_neg hy]
  rfl

theorem bbandsCompute_getCol_percent (p : ℕ) (sd : ℝ) (df : Frame) :
    (bbandsCompute p sd df).getCol "bbands_percent" =
      bbandsPercentAmended p sd (df.getCol "close") := by
  simp only [bbandsCompute, bbandsPercentAmended]
  rw [Frame.getCol_dropCols _ "bbands_percent"
    ["bbands_ma", "bbands_std", "bbands_up", "bbands_dn"] (by decide),
    Frame.getCol_setCol_self]

/-! ## Claim C3: the Bollinger `%b` column -/

/-- C3 (counterexample): on a three-bar buffer with closes 0, 1, 2 and
`bbands(period=3, std=2)`, the source stores the missing sentinel at row
2 (it takes the rolling standard deviation of the rolling MEAN, which
needs five bars), while the claim's formula — standard deviation of
close — yields `%b = 3/4` there. -/
theorem bbands_std_source_cex :
    (((client123.bbands 3 2 "bbands").df.getCol "bbands_percent").getD 2 none) =
      none ∧
    ((bbandsPercentC3spec 3 2 (client123.df.getCol "close")).getD 2 none) =
      some (3 / 4) := by
  constructor
  · rfl
  · have hcl : client123.df.getCol "close" = [some (0 : ℝ), some 1, some 2] := rfl
    rw [hcl]
    have hclv : ([some (0 : ℝ), some 1, some 2] : Col).getD 2 none = some 2 := rfl
    have hfm : List.filterMap id [some (0 : ℝ), some 1, some 2] = [0, 1, 2] := rfl
    have hma : (rollingMean 3 [some (0 : ℝ), some 1, some 2]).getD 2 none =
        some 1 := by
      rw [getD_eq_getElem?]
      show (rollingApply 3 (fun w => some (w.sum / (w.length : ℝ)))
        [some (0 : ℝ), some 1, some 2])[2]?.getD none = some 1
      rw [rollingApply_getElem? _ _ _ 2 (by norm_num)]
      norm_num [hfm]
    have hsd : (rollingStd 3 [some (0 : ℝ), some 1, some 2]).getD 2 none =
        some 1 := by
      rw [getD_eq_getElem?]
      show (rollingApply 3
        (fun w => if w.length ≤ 1 then none else some (stdWindow w))
        [some (0 : ℝ), some 1, some 2])[2]?.getD none = some 1
      rw [rollingApply_getElem? _ _ _ 2 (by norm_num)]
      norm_num [hfm, stdWindow]
    have hsmul : (colSmul 2 (rollingStd 3 [some (0 : ℝ), some 1, some 2])).getD
        2 none = some (2 * 1) :=
      getD_colSmul_some 2 _ 2 1 hsd
    have hup := getD_colZip_some (fun u v => u + v)
      (rollingMean 3 [some (0 : ℝ), some 1, some 2])
      (colSmul 2 (rollingStd 3 [some (0 : ℝ), some 1, some 2]))
      2 1 (2 * 1) hma hsmul
    have hdn := getD_colZip_some (fun u v => u - v)
      (rollingMean 3 [some (0 : ℝ), some 1, some 2])
      (colSmul 2 (rollingStd 3 [some (0 : ℝ), some 1, some 2]))
      2 1 (2 * 1) hma hsmul
    have hnum := getD_colZip_some (fun u v => u - v)
      ([some (0 : ℝ), some 1, some 2] : Col)
      (colZip (fun u v => u - v) (rollingMean 3 [some (0 : ℝ), some 1, some 2])
        (colSmul 2 (rollingStd 3 [some (0 : ℝ), some 1, some 2])))
      2 2 (1 - 2 * 1) hclv hdn
    have hden := getD_colZip_some (fun u v => u - v) _ _ 2 (1 + 2 * 1)
      (1 - 2 * 1) hup hdn
    simp only [bbandsPercentC3spec, colSub, colAdd]
    rw [getD_colDiv_some _ _ 2 (2 - (1 - 2 * 1)) ((1 + 2 * 1) - (1 - 2 * 1))
      hnum hden (by norm_num)]
    norm_num

/-- C3 (amended): for a non-empty buffer with fresh Bollinger column
names, `bbands(period, std)` stores per row
`%b = (close - (ma - std*sd)) / ((ma + std*sd) - (ma - std*sd))` where
`ma` is the rolling mean of close and `sd` is the rolling standard
deviation OF `ma` over `period` bars; positions before `2*period - 1`
observations are missing; only the final `bbands_percent` column
persists (row index unchanged); and a zero band width stores the
non-numeric sentinel rather than raising. -/
theorem bbands_percent_formula (c : FrameClient) (p : ℕ) (sd : ℝ) (nm : String)
    (hne : c.df.isEmpty = false)
    (hfresh : ∀ a ∈ ["bbands_ma", "bbands_std", "bbands_up", "bbands_dn",
      "bbands_percent"], a ∉ c.df.colNames) :
    (c.bbands p sd nm).df.getCol "bbands_percent" =
      bbandsPercentAmended p sd (c.df.getCol "close") ∧
    (c.bbands p sd nm).df.index = c.df.index ∧
    (c.bbands p sd nm).df.colNames = c.df.colNames ++ ["bbands_percent"] ∧
    (∀ t, t + 1 < 2 * p - 1 →
      ((c.bbands p sd nm).df.getCol "bbands_percent").getD t none = none) ∧
    (∀ t m0 u,
      (rollingMean p (c.df.getCol "close")).getD t none = some m0 →
      (rollingStd p (rollingMean p (c.df.getCol "close"))).getD t none = some u →
      sd * u = 0 →
      ((c.bbands p sd nm).df.getCol "bbands_percent").getD t none = none) := by
  have hdf : (c.bbands p sd nm).df = bbandsCompute p sd c.df :=
    applyCall_df_of_nonempty c (.bbands p sd nm) hne
  have hpercent : (c.bbands p sd nm).df.getCol "bbands_percent" =
      bbandsPercentAmended p sd (c.df.getCol "close") := by
    rw [hdf]
    exact bbandsCompute_getCol_percent p sd c.df
  refine ⟨hpercent, ?_, ?_, ?_, ?_⟩
  · rw [hdf, bbandsCompute_index]
  · rw [hdf, bbandsCompute_colNames p sd c.df (hfresh _ (by simp)) (hfresh _ (by simp))
      (hfresh _ (by simp)) (hfresh _ (by simp)), if_neg (hfresh _ (by simp))]
  · intro t ht
    rw [hpercent]
    have hsd := std_of_mean_getD_none p (c.df.getCol "close") t ht
    have hsmul := getD_colSmul_none sd
      (rollingStd p (rollingMean p (c.df.getCol "close"))) t hsd
    have hdn := getD_colZip_none_right (fun u v => u - v)
      (rollingMean p (c.df.getCol "close"))
      (colSmul sd (rollingStd p (rollingMean p (c.df.getCol "close")))) t hsmul
    have hnum := getD_colZip_none_right (fun u v => u - v) (c.df.getCol "close")
      (colZip (fun u v => u - v) (rollingMean p (c.df.getCol "close"))
        (colSmul sd (rollingStd p (rollingMean p (c.df.getCol "close"))))) t hdn
    simp only [bbandsPercentAmended, colSub, colAdd]
    exact getD_colDiv_none_left _ _ t hnum
  · intro t m0 u hma hsd hzero
    rw [hpercent]
    have hsmul := getD_colSmul_some sd
      (rollingStd p (rollingMean p (c.df.getCol "close"))) t u hsd
    have hup := getD_colZip_some (fun u v => u + v)
      (rollingMean p (c.df.getCol "close"))
      (colSmul sd (rollingStd p (rollingMean p (c.df.getCol "close"))))
      t m0 (sd * u) hma hsmul
    have hdn := getD_colZip_some (fun u v => u - v)
      (rollingMean p (c.df.getCol "close"))
      (colSmul sd (rollingStd p (rollingMean p (c.df.getCol "close"))))
      t m0 (sd * u) hma hsmul
    have hden := getD_colZip_some (fun u v => u - v) _ _ t (m0 + sd * u)
      (m0 - sd * u) hup hdn
    simp only [bbandsPercentAmended, colSub, colAdd]
    exact getD_colDiv_zero_den _ _ t ((m0 + sd * u) - (m0 - sd * u)) hden
      (by linarith)

/-- C3 (witness): the three-bar client keeps its index, gains exactly
the `bbands_percent` column. -/
theorem bbands_percent_formula_witness :
    client123.df.isEmpty = false ∧
    (client123.bbands 3 2 "bb").df.index = client123.df.index ∧
    (client123.bbands 3 2 "bb").df.colNames = ["close", "bbands_percent"] := by
  have h := bbands_percent_formula client123 3 2 "bb" rfl (by decide)
  refine ⟨rfl, h.2.1, ?_⟩
  rw [h.2.2.1]
  rfl

/-- C10 (witness): on a concrete close-only frame, registering `macd`
under two names yields the same frame, with the fixed output column. -/
theorem indicator_name_only_registry_witness :
    client123.df.isEmpty = false ∧
    (client123.macd 2 4 2 "alpha").df = (client123.macd 2 4 2 "beta").df ∧
    (client123.macd 2 4 2 "alpha").df.colNames = client123.df.colNames ++ ["macd"] := by
  have h := indicator_name_only_registry client123 2 4 2 3 3 2 "alpha" "beta"
    rfl (by decide)
  exact ⟨rfl, h.1.1, h.2.1.1⟩
